import Mathlib

/-!
A verification development for the `mrobotics.piecewise` planar-curve library
(polyline / cubic-spline curves with Frenet projection).

The Python sources are shallowly embedded over `ℝ`:

* 2D numpy points become `ℝ × ℝ`; `np.linalg.norm(·, ord=2)` becomes
  `Real.sqrt` of the sum of squares;
* `src/mrobotics/piecewise/search_lhs_bkpt.py` (`linear_search`) is embedded
  generically over a linear order, returning the same `ℤ` sentinels;
* `src/mrobotics/piecewise/polyline.py` (`polyline.__init__`, `_get_pos`,
  `_get_utang`, `_get_pos_utang`, `get_pos`, `project`) is embedded over
  lists of points; numpy assertion failures are modelled by `Option`;
* the projection loops of `polyline.project` and of the base class
  `planar_curve_deg1.project` (`src/mrobotics/piecewise/base.py`) are each
  embedded as a fuel recursion (the fuel is the `iter_max` bound of the
  `while` loop);
* `src/mrobotics/piecewise/cubic_onepiece.py` (`spline_2d_onepiece`) is
  embedded with its 4×2 coefficient table as four coefficient rows; Python
  exceptions raised by `__init__` are modelled by `Except`;
* `src/mrobotics/piecewise/cubic.py` delegates spline fitting to
  `scipy.interpolate.splrep(x, y, s=0)`; for exactly four data sites a cubic
  interpolating B-spline has no interior knots, so the fitted spline is the
  unique degree-3 polynomial interpolant, which is embedded in closed form
  (Newton divided differences expanded to the power basis); `splder` becomes
  the corresponding coefficient shift.
-/

/-! ## 2D vector operations (numpy semantics) -/

/-- Dot product of two planar vectors (`np.dot` on length-2 arrays). -/
def dot2 (a b : ℝ × ℝ) : ℝ := a.1 * b.1 + a.2 * b.2

/-- Rotation by +90° (counter-clockwise):
`np.array([-v[1], v[0]])` as in both `project` implementations. -/
def rot90 (v : ℝ × ℝ) : ℝ × ℝ := (-v.2, v.1)

/-- Scalar times vector, as numpy broadcasting `(p1-p0)*scale`. -/
def smul2 (c : ℝ) (v : ℝ × ℝ) : ℝ × ℝ := (c * v.1, c * v.2)

/-- Vector divided componentwise by a scalar, as numpy `v / n`. -/
noncomputable def vdiv2 (v : ℝ × ℝ) (c : ℝ) : ℝ × ℝ := (v.1 / c, v.2 / c)

/-- Euclidean norm `np.linalg.norm(v, ord=2)` of a planar vector. -/
noncomputable def norm2 (v : ℝ × ℝ) : ℝ := Real.sqrt (v.1 ^ 2 + v.2 ^ 2)

/-! ## search_lhs_bkpt.py -/

/-- Loop body of `linear_search`: walks the breakpoint list keeping the
current enumeration index `i`; on the first entry strictly greater than the
query returns `i - 1`, and returns `-2` when the list is exhausted. -/
def linear_search_aux {α : Type*} [LinearOrder α] (q : α) : List α → ℤ → ℤ
  | [], _ => -2
  | a :: rest, i => if q < a then i - 1 else linear_search_aux q rest (i + 1)

/-- `linear_search(idx2arclen, query_arclen)` from
`src/mrobotics/piecewise/search_lhs_bkpt.py`: the enumeration starts at
index 0.  Returns `-1` when the query is below the first breakpoint and
`-2` when no breakpoint exceeds the query. -/
def linear_search {α : Type*} [LinearOrder α] (l : List α) (q : α) : ℤ :=
  linear_search_aux q l 0

/-! ## polyline.py : data model and construction -/

/-- Cumulative sum of a list of reals (`np.cumsum`). -/
def cumsum (l : List ℝ) : List ℝ := (List.scanl (· + ·) 0 l).tail

/-- `calc_cum_distance(XY_waypts)`: Euclidean norms of consecutive waypoint
differences (`np.diff` then `np.linalg.norm`), then `np.cumsum`. -/
noncomputable def calc_cum_distance (W : List (ℝ × ℝ)) : List ℝ :=
  cumsum (List.zipWith (fun p q => norm2 (q - p)) W W.tail)

/-- The `polyline` object state: the copied waypoint array and the cached
breakpoint table `idx2arclen`. -/
structure polyline where
  XY_waypoints : List (ℝ × ℝ)
  idx2arclen : List ℝ

/-- `polyline.__init__`: asserts at least two waypoints (the 2-column shape
assertions are enforced by the `ℝ × ℝ` element type); on success stores the
waypoints and `idx2arclen = np.append([0.0], calc_cum_distance(...))`.
A failed assertion is modelled by `none`. -/
noncomputable def polyline.init (W : List (ℝ × ℝ)) : Option polyline :=
  if 2 ≤ W.length then some ⟨W, 0 :: calc_cum_distance W⟩ else none

/-- `get_tot_dist`: `idx2arclen[-1]`. -/
def polyline.get_tot_dist (pl : polyline) : ℝ := pl.idx2arclen.getLastD 0

/-- `s_min` property of the base class: `idx2arclen[0]`. -/
def polyline.s_min (pl : polyline) : ℝ := pl.idx2arclen.getD 0 0

/-- `s_max` property of the base class: `idx2arclen[-1]`. -/
def polyline.s_max (pl : polyline) : ℝ := pl.idx2arclen.getLastD 0

/-- `search_first_bkpt_idx`: translate the `linear_search` sentinels,
`-1 ↦ 0` (extrapolate from the first segment) and
`-2 ↦ len(idx2arclen) - 2` (extrapolate from the last segment). -/
noncomputable def polyline.search_first_bkpt_idx (pl : polyline) (s : ℝ) : ℕ :=
  let r := linear_search pl.idx2arclen s
  if r = -1 then 0
  else if r = -2 then pl.idx2arclen.length - 2
  else r.toNat

/-- `np.clip(x, 0.0, tot)` as used by `_get_pos` and friends. -/
noncomputable def polyline.clip0 (pl : polyline) (s : ℝ) : ℝ :=
  min (max s 0) pl.get_tot_dist

/-- `polyline._get_pos(arclength, clip)`: optional clipping, segment lookup,
then affine interpolation `p0 + (p1-p0)*scale` with
`scale = (s - t_i)/(t_{i+1} - t_i)`. -/
noncomputable def polyline._get_pos (pl : polyline) (s : ℝ) (clip : Bool) : ℝ × ℝ :=
  let s := if clip then pl.clip0 s else s
  let i := pl.search_first_bkpt_idx s
  let p0 := pl.XY_waypoints.getD i 0
  let p1 := pl.XY_waypoints.getD (i + 1) 0
  let scale := (s - pl.idx2arclen.getD i 0) /
    (pl.idx2arclen.getD (i + 1) 0 - pl.idx2arclen.getD i 0)
  p0 + smul2 scale (p1 - p0)

/-- `polyline._get_utang(arclength, clip)`: direction of the located segment
divided by its norm. -/
noncomputable def polyline._get_utang (pl : polyline) (s : ℝ) (clip : Bool) : ℝ × ℝ :=
  let s := if clip then pl.clip0 s else s
  let i := pl.search_first_bkpt_idx s
  let p0 := pl.XY_waypoints.getD i 0
  let p1 := pl.XY_waypoints.getD (i + 1) 0
  vdiv2 (p1 - p0) (norm2 (p1 - p0))

/-- `polyline._get_pos_utang(arclength, clip)`: the bundled
position/unit-tangent evaluation used by `project`. -/
noncomputable def polyline._get_pos_utang (pl : polyline) (s : ℝ) (clip : Bool) :
    (ℝ × ℝ) × (ℝ × ℝ) :=
  let s := if clip then pl.clip0 s else s
  let i := pl.search_first_bkpt_idx s
  let p0 := pl.XY_waypoints.getD i 0
  let p1 := pl.XY_waypoints.getD (i + 1) 0
  let p0_to_p1 := p1 - p0
  let scale := (s - pl.idx2arclen.getD i 0) /
    (pl.idx2arclen.getD (i + 1) 0 - pl.idx2arclen.getD i 0)
  (p0 + smul2 scale p0_to_p1, vdiv2 p0_to_p1 (norm2 p0_to_p1))

/-- `polyline.get_pos` on a single float query (the
`_unify_output_despite_polymorphic_input` wrapper forwards it to
`_get_pos`; the row-vector reshape is dropped).  The source default for
`clip` is `True`. -/
noncomputable def polyline.get_pos (pl : polyline) (s : ℝ) (clip : Bool) : ℝ × ℝ :=
  pl._get_pos s clip

/-- The spec-side description of the affine map of segment `i` of a
polyline, `s ↦ p_i + (p_{i+1} - p_i) · (s - t_i)/(t_{i+1} - t_i)`, used to
state what "affinely extending the boundary segment" means. -/
noncomputable def segmentAffineMap (pl : polyline) (i : ℕ) (s : ℝ) : ℝ × ℝ :=
  let p0 := pl.XY_waypoints.getD i 0
  let p1 := pl.XY_waypoints.getD (i + 1) 0
  let scale := (s - pl.idx2arclen.getD i 0) /
    (pl.idx2arclen.getD (i + 1) 0 - pl.idx2arclen.getD i 0)
  p0 + smul2 scale (p1 - p0)

/-! ## The projection loops

Both `planar_curve_deg1.project` (base.py) and `polyline.project`
(polyline.py) run the same `while (not converged and i < iter_max)` loop;
each is embedded as its own fuel recursion mirroring its own source. -/

/-- Loop state of the projection `while` loop: the current iterate `s_new`,
and the `delta_XY`, `curve_unit_tang_now` and `converged` values left over
from the most recent loop body execution. -/
structure ProjState where
  s : ℝ
  delta : ℝ × ℝ
  ut : ℝ × ℝ
  conv : Bool

/-- The `while` loop of `polyline.project`: each body run evaluates
`_get_pos_utang(s_old, clip=False)`, forms `delta_XY = XY_query - pos`,
moves by `s_increment = dot(delta_XY, utang)` and tests
`|s_new - s_old| < soln_tolerance`. -/
noncomputable def polyline.project_loop (pl : polyline) (q : ℝ × ℝ) (tol : ℝ) :
    ℕ → ProjState → ProjState
  | 0, st => st
  | n + 1, st =>
    if st.conv then st
    else
      let pu := pl._get_pos_utang st.s false
      let delta := q - pu.1
      let s_new := st.s + dot2 delta pu.2
      polyline.project_loop pl q tol n
        ⟨s_new, delta, pu.2, if |s_new - st.s| < tol then true else false⟩

/-- `polyline.project(XY_query, arclength_init_guess, iter_max,
soln_tolerance)`: the `assert iter_max > 0` is modelled by `none`; the
returned arc-length is `none` (the `np.nan` sentinel) when the loop exits
unconverged, while the signed offset `dot(delta_XY, rot90(utang))` is
computed from the last iterate either way. -/
noncomputable def polyline.project (pl : polyline) (q : ℝ × ℝ) (guess : ℝ)
    (iter_max : ℕ) (tol : ℝ) : Option (Option ℝ × ℝ) :=
  if iter_max = 0 then none
  else
    let st := pl.project_loop q tol iter_max ⟨guess, 0, 0, false⟩
    some (if st.conv then some st.s else none, dot2 st.delta (rot90 st.ut))

/-- The `while` loop of the base-class `planar_curve_deg1.project`
(base.py): identical body, with the curve's bundled position/unit-tangent
evaluator abstracted as `g` (the abstract method `_get_pos_utang`). -/
noncomputable def planar_project_loop (g : ℝ → (ℝ × ℝ) × (ℝ × ℝ)) (q : ℝ × ℝ)
    (tol : ℝ) : ℕ → ProjState → ProjState
  | 0, st => st
  | n + 1, st =>
    if st.conv then st
    else
      let pu := g st.s
      let delta := q - pu.1
      let s_new := st.s + dot2 delta pu.2
      planar_project_loop g q tol n
        ⟨s_new, delta, pu.2, if |s_new - st.s| < tol then true else false⟩

/-- `planar_curve_deg1.project`: same loop, but the last iterate's
arc-length is returned as-is even when unconverged (the NaN overwrite is
commented out in base.py). -/
noncomputable def planar_project (g : ℝ → (ℝ × ℝ) × (ℝ × ℝ)) (q : ℝ × ℝ)
    (guess : ℝ) (iter_max : ℕ) (tol : ℝ) : Option (ℝ × ℝ) :=
  if iter_max = 0 then none
  else
    let st := planar_project_loop g q tol iter_max ⟨guess, 0, 0, false⟩
    some (st.s, dot2 st.delta (rot90 st.ut))

/-! ## cubic_onepiece.py : spline_2d_onepiece -/

/-- Python exceptions that `spline_2d_onepiece.__init__` can raise. -/
inductive PyErr where
  | attributeError : PyErr
  | zeroDivisionError : PyErr
deriving DecidableEq

/-- One row pair per polynomial degree: the 4×2 coefficient table
`coeff` of `spline_2d_onepiece`, stored as its four rows
`(cx[i], cy[i])`, `i = 0..3`. -/
structure spline_2d_onepiece where
  c0 : ℝ × ℝ
  c1 : ℝ × ℝ
  c2 : ℝ × ℝ
  c3 : ℝ × ℝ
  t0 : ℝ
  T : ℝ
  oneOverT : ℝ

/-- `spline_2d_onepiece.__init__(t0, t1, coeff)`: when `coeff` is not
`None` the constructor evaluates `self.coeff.shape` although `self.coeff`
was never assigned on that branch, raising `AttributeError`; when `coeff`
is `None` the table is zero-initialized, then `T = t1 - t0` and
`oneOverT = 1/T` are computed (raising `ZeroDivisionError` when
`t1 == t0`). -/
noncomputable def spline_2d_onepiece.init (t0 t1 : ℝ)
    (coeff : Option ((ℝ × ℝ) × (ℝ × ℝ) × (ℝ × ℝ) × (ℝ × ℝ))) :
    Except PyErr spline_2d_onepiece :=
  match coeff with
  | some _ => .error .attributeError
  | none =>
    if t1 - t0 = 0 then .error .zeroDivisionError
    else .ok ⟨0, 0, 0, 0, t0, t1 - t0, 1 / (t1 - t0)⟩

/-- `fit_pos_vel_ends(p0, v0, p1, v1)`: velocities are pre-scaled by `T`,
then `c0 = p0`, `c1 = T·v0`, and with `A = p1 - p0 - T·v0`,
`B = T·v1 - T·v0`: `c2 = 3A - B`, `c3 = -2A + B`. -/
def spline_2d_onepiece.fit_pos_vel_ends (sp : spline_2d_onepiece)
    (p0 v0 p1 v1 : ℝ × ℝ) : spline_2d_onepiece :=
  let v0T := smul2 sp.T v0
  let v1T := smul2 sp.T v1
  let vecA := p1 - p0 - v0T
  let vecB := v1T - v0T
  { sp with
    c0 := p0
    c1 := v0T
    c2 := smul2 3 vecA - vecB
    c3 := smul2 (-2) vecA + vecB }

/-- `normalize_parameter` for a single float query:
`(t - t0) * oneOverT`. -/
def spline_2d_onepiece.normalize_parameter (sp : spline_2d_onepiece) (t : ℝ) : ℝ :=
  (t - sp.t0) * sp.oneOverT

/-- `get_pos_wrt_natural` for one query: the basis row
`[1, u, u², u³]` applied to the coefficient table. -/
def spline_2d_onepiece.get_pos_wrt_natural (sp : spline_2d_onepiece) (u : ℝ) : ℝ × ℝ :=
  sp.c0 + smul2 u sp.c1 + smul2 (u ^ 2) sp.c2 + smul2 (u ^ 3) sp.c3

/-- `get_tang_wrt_natural` for one query: the basis row `[1, 2u, 3u²]`
applied to rows `coeff[1:]`. -/
def spline_2d_onepiece.get_tang_wrt_natural (sp : spline_2d_onepiece) (u : ℝ) : ℝ × ℝ :=
  sp.c1 + smul2 (2 * u) sp.c2 + smul2 (3 * u ^ 2) sp.c3

/-- `get_pos(t_eval)` for one query: evaluate on the normalized domain. -/
def spline_2d_onepiece.get_pos (sp : spline_2d_onepiece) (t : ℝ) : ℝ × ℝ :=
  sp.get_pos_wrt_natural (sp.normalize_parameter t)

/-- `get_tang(t_eval)` for one query: natural-domain tangent times
`oneOverT` (chain rule). -/
def spline_2d_onepiece.get_tang (sp : spline_2d_onepiece) (t : ℝ) : ℝ × ℝ :=
  smul2 sp.oneOverT (sp.get_tang_wrt_natural (sp.normalize_parameter t))

/-! ## cubic.py : the open interpolating curve's spline fit

`interpolating_path2d._init_spline_objs` calls
`splrep(self.idx2arclen, data, s=0)`.  For exactly four data sites an
interpolating cubic B-spline admits no interior knots
(Schoenberg–Whitney), so the fitted spline is the unique degree-3
polynomial through the four points; `splder` differentiates the stored
representation. -/

/-- A cubic polynomial in the power basis `(c0, c1, c2, c3)`,
`s ↦ c0 + c1·s + c2·s² + c3·s³`. -/
def evalCubic (c : ℝ × ℝ × ℝ × ℝ) (s : ℝ) : ℝ :=
  c.1 + c.2.1 * s + c.2.2.1 * s ^ 2 + c.2.2.2 * s ^ 3

/-- `splder`: derivative of a stored cubic, again as power-basis
coefficients. -/
def derCubic (c : ℝ × ℝ × ℝ × ℝ) : ℝ × ℝ × ℝ × ℝ :=
  (c.2.1, 2 * c.2.2.1, 3 * c.2.2.2, 0)

/-- `splrep(t, y, s=0)` on exactly four data sites `(tᵢ, yᵢ)`: the unique
cubic polynomial interpolant, written via Newton divided differences
expanded into the power basis. -/
noncomputable def fit_cubic4 (t0 t1 t2 t3 y0 y1 y2 y3 : ℝ) : ℝ × ℝ × ℝ × ℝ :=
  let d01 := (y1 - y0) / (t1 - t0)
  let d12 := (y2 - y1) / (t2 - t1)
  let d23 := (y3 - y2) / (t3 - t2)
  let d012 := (d12 - d01) / (t2 - t0)
  let d123 := (d23 - d12) / (t3 - t1)
  let d0123 := (d123 - d012) / (t3 - t0)
  (y0 - d01 * t0 + d012 * (t0 * t1) - d0123 * (t0 * t1 * t2),
   d01 - d012 * (t0 + t1) + d0123 * (t0 * t1 + t0 * t2 + t1 * t2),
   d012 - d0123 * (t0 + t1 + t2),
   d0123)

/-- The y-axis spline object `spl_y` of an `interpolating_path2d` built on
exactly four waypoints: `splrep(idx2arclen, XY_waypoints[:,1], s=0)`. -/
noncomputable def interpolating_path2d_spl_y4 (pl : polyline) : ℝ × ℝ × ℝ × ℝ :=
  fit_cubic4 (pl.idx2arclen.getD 0 0) (pl.idx2arclen.getD 1 0)
    (pl.idx2arclen.getD 2 0) (pl.idx2arclen.getD 3 0)
    (pl.XY_waypoints.getD 0 0).2 (pl.XY_waypoints.getD 1 0).2
    (pl.XY_waypoints.getD 2 0).2 (pl.XY_waypoints.getD 3 0).2

/-- The y-component of `get_deri_tang` (the second derivative
`splev(·, spl_ddoty)`, with `spl_ddoty = splder(splder(spl_y))`) of a
four-waypoint `interpolating_path2d`. -/
noncomputable def interpolating_path2d_ddoty4 (pl : polyline) (s : ℝ) : ℝ :=
  evalCubic (derCubic (derCubic (interpolating_path2d_spl_y4 pl))) s

/-! ## The periodic cubic spline curve -/

/-- Modelled from the spec: the class `cubic_interpolating_loop` is
imported by `src/tests/piecewise/test_periodic.py` but is absent from
`src/mrobotics/piecewise/cubic.py`.  Per spec §4.4 it is a periodic cubic
spline curve: the same per-axis spline machinery fitted with periodic
boundary conditions over a canonical domain of length
`period = s_max - s_min > 0`, together with a `wrap` operation mapping any
real parameter into the canonical domain, every evaluation being performed
at the wrapped parameter.  The fitted canonical-domain evaluators for
position, tangent (`splev` of `spl_x`/`spl_y` derivatives) and second
derivative are abstracted as the fields `pos_at`, `tang_at`,
`deri_tang_at`. -/
structure cubic_interpolating_loop where
  s_min : ℝ
  period : ℝ
  period_pos : 0 < period
  pos_at : ℝ → ℝ × ℝ
  tang_at : ℝ → ℝ × ℝ
  deri_tang_at : ℝ → ℝ × ℝ

/-- Modelled from the spec: `wrap(s)` maps an arbitrary real `s` into
`[s_min, s_min + period)` by adding/subtracting whole periods. -/
noncomputable def cubic_interpolating_loop.wrap (c : cubic_interpolating_loop)
    (s : ℝ) : ℝ :=
  s - c.period * ⌊(s - c.s_min) / c.period⌋

/-- Periodic `get_pos`: evaluate the canonical spline at the wrapped
parameter. -/
noncomputable def cubic_interpolating_loop.get_pos (c : cubic_interpolating_loop)
    (s : ℝ) : ℝ × ℝ :=
  c.pos_at (c.wrap s)

/-- Periodic `get_tang`. -/
noncomputable def cubic_interpolating_loop.get_tang (c : cubic_interpolating_loop)
    (s : ℝ) : ℝ × ℝ :=
  c.tang_at (c.wrap s)

/-- Periodic `get_deri_tang`. -/
noncomputable def cubic_interpolating_loop.get_deri_tang
    (c : cubic_interpolating_loop) (s : ℝ) : ℝ × ℝ :=
  c.deri_tang_at (c.wrap s)

/-- Periodic `get_utang`, normalizing the tangent as
`interpolating_path2d.get_utang` does. -/
noncomputable def cubic_interpolating_loop.get_utang (c : cubic_interpolating_loop)
    (s : ℝ) : ℝ × ℝ :=
  vdiv2 (c.get_tang s) (norm2 (c.get_tang s))

/-- Periodic signed curvature, by the formula of `get_tang_and_curv`
(base.py / cubic.py): `(ẋ·ÿ - ẏ·ẍ) / ‖ṗ‖³`. -/
noncomputable def cubic_interpolating_loop.get_curv (c : cubic_interpolating_loop)
    (s : ℝ) : ℝ :=
  ((c.get_tang s).1 * (c.get_deri_tang s).2 -
    (c.get_tang s).2 * (c.get_deri_tang s).1) / norm2 (c.get_tang s) ^ 3

/-! ## Helper lemmas on sorted breakpoint lists and `linear_search` -/

lemma linear_search_aux_of_forall_le {α : Type*} [LinearOrder α] (q : α) :
    ∀ (l : List α) (i : ℤ), (∀ a ∈ l, a ≤ q) → linear_search_aux q l i = -2 := by
  intro l
  induction l with
  | nil => intro i _; rfl
  | cons a rest ih =>
    intro i h
    have ha : a ≤ q := h a (by simp)
    simp only [linear_search_aux, if_neg (not_lt.mpr ha)]
    exact ih (i + 1) fun b hb => h b (by simp [hb])

lemma chain_head_le_get {α : Type*} [LinearOrder α] :
    ∀ (t : List α) (b : α), (b :: t).Chain' (· < ·) →
      ∀ (k : ℕ) (hk : k < (b :: t).length), b ≤ (b :: t).get ⟨k, hk⟩ := by
  intro t
  induction t with
  | nil =>
    intro b _ k hk
    have hk0 : k = 0 := by simpa using Nat.lt_one_iff.mp (by simpa using hk)
    subst hk0
    simp
  | cons c t ih =>
    intro b hbc k hk
    match k with
    | 0 => simp
    | k + 1 =>
      have hb_lt : b < c := (List.chain'_cons.mp hbc).1
      have hc : (c :: t).Chain' (· < ·) := (List.chain'_cons.mp hbc).2
      have := ih c hc k (by simpa using hk)
      calc b ≤ c := le_of_lt hb_lt
        _ ≤ _ := this

lemma getLastD_default_irrel {α : Type*} (t : List α) (y d d' : α) :
    (y :: t).getLastD d = (y :: t).getLastD d' := by
  cases t with
  | nil => rfl
  | cons z t => simp only [List.getLastD_cons]

lemma chain_le_getLastD {α : Type*} [LinearOrder α] :
    ∀ (l : List α) (d : α), l.Chain' (· < ·) → ∀ a ∈ l, a ≤ l.getLastD d := by
  intro l
  induction l with
  | nil => intro d _ a ha; simp at ha
  | cons x rest ih =>
    intro d hch a ha
    match rest with
    | [] =>
      simp at ha
      simp [ha]
    | y :: t =>
      have hxy : x < y := (List.chain'_cons.mp hch).1
      have hyt : (y :: t).Chain' (· < ·) := (List.chain'_cons.mp hch).2
      rcases List.mem_cons.mp ha with rfl | ha'
      · have h2 : y ≤ (y :: t).getLastD a := ih a hyt y (by simp)
        rw [List.getLastD_cons]
        exact le_of_lt (lt_of_lt_of_le hxy h2)
      · have h2 : a ≤ (y :: t).getLastD x := ih x hyt a ha'
        rw [List.getLastD_cons]
        exact h2

lemma linear_search_aux_mid {α : Type*} [LinearOrder α] (q : α) :
    ∀ (rest : List α) (a : α) (i : ℤ), (a :: rest).Chain' (· < ·) → a ≤ q →
      (∃ b ∈ rest, q < b) →
      ∃ (j : ℕ) (hj : j < (a :: rest).length),
        linear_search_aux q (a :: rest) i = i + j ∧
        (a :: rest).get ⟨j, hj⟩ ≤ q ∧
        ∀ (m : ℕ) (hm : m < (a :: rest).length),
          (a :: rest).get ⟨m, hm⟩ ≤ q → m ≤ j := by
  intro rest
  induction rest with
  | nil =>
    intro a i _ _ hex
    rcases hex with ⟨b, hb, _⟩
    simp at hb
  | cons b t ih =>
    intro a i hch ha hex
    have hab : a < b := (List.chain'_cons.mp hch).1
    have hbt : (b :: t).Chain' (· < ·) := (List.chain'_cons.mp hch).2
    have step : linear_search_aux q (a :: b :: t) i = linear_search_aux q (b :: t) (i + 1) := by
      simp [linear_search_aux, not_lt.mpr ha]
    by_cases hqb : q < b
    · refine ⟨0, by simp, ?_, by simpa using ha, ?_⟩
      · rw [step]
        simp [linear_search_aux, hqb]
      · intro m hm hle
        match m with
        | 0 => exact le_refl 0
        | m + 1 =>
          exfalso
          have hge : b ≤ (a :: b :: t).get ⟨m + 1, hm⟩ :=
            chain_head_le_get t b hbt m (by simpa using hm)
          exact absurd (lt_of_lt_of_le hqb (le_trans hge hle)) (lt_irrefl q)
    · have hb_le : b ≤ q := not_lt.mp hqb
      have hex' : ∃ c ∈ t, q < c := by
        rcases hex with ⟨c, hc, hqc⟩
        rcases List.mem_cons.mp hc with rfl | hct
        · exact absurd hqc hqb
        · exact ⟨c, hct, hqc⟩
      rcases ih b (i + 1) hbt hb_le hex' with ⟨j, hj, heq, hjle, hmax⟩
      refine ⟨j + 1, by simpa using hj, ?_, by simpa using hjle, ?_⟩
      · rw [step, heq]; push_cast; ring
      · intro m hm hle
        match m with
        | 0 => exact Nat.zero_le _
        | m + 1 =>
          have := hmax m (by simpa using hm) (by simpa using hle)
          omega

lemma getLastD_mem_cons {α : Type*} :
    ∀ (t : List α) (y d : α), (y :: t).getLastD d ∈ y :: t
  | [], y, d => by simp
  | z :: t, y, d => by
    rw [List.getLastD_cons]
    exact List.mem_cons_of_mem y (getLastD_mem_cons t z y)

/-- C8: on a strictly increasing breakpoint list, `linear_search` returns
`-1` (`BELOW_FIRST`) when the query is below the first breakpoint, `-2`
(`ABOVE_LAST`) when the query is at or above the last breakpoint, and
otherwise the greatest index `j` with `breakpoints[j] ≤ query`. -/
theorem linear_search_encloses_or_sentinel (l : List ℚ) (q : ℚ) (hne : l ≠ [])
    (hsorted : l.Chain' (· < ·)) :
    (q < l.getD 0 0 → linear_search l q = -1) ∧
    (l.getLastD 0 ≤ q → linear_search l q = -2) ∧
    (l.getD 0 0 ≤ q → q < l.getLastD 0 →
      ∃ (j : ℕ) (hj : j < l.length),
        linear_search l q = j ∧
        l.get ⟨j, hj⟩ ≤ q ∧
        ∀ (m : ℕ) (hm : m < l.length), l.get ⟨m, hm⟩ ≤ q → m ≤ j) := by
  match l, hne with
  | a :: rest, _ =>
    refine ⟨?_, ?_, ?_⟩
    · intro hq
      simp only [List.getD_cons_zero] at hq
      simp [linear_search, linear_search_aux, hq]
    · intro hq
      exact linear_search_aux_of_forall_le q (a :: rest) 0
        fun b hb => le_trans (chain_le_getLastD (a :: rest) 0 hsorted b hb) hq
    · intro hq0 hqlast
      simp only [List.getD_cons_zero] at hq0
      have hmem : (a :: rest).getLastD 0 ∈ a :: rest := getLastD_mem_cons rest a 0
      have hz_rest : (a :: rest).getLastD 0 ∈ rest := by
        rcases List.mem_cons.mp hmem with h | h
        · exact absurd (h ▸ hqlast) (not_lt.mpr hq0)
        · exact h
      rcases linear_search_aux_mid q rest a 0 hsorted hq0
          ⟨(a :: rest).getLastD 0, hz_rest, hqlast⟩ with ⟨j, hj, heq, hle, hmax⟩
      exact ⟨j, hj, by simpa [linear_search] using heq, hle, hmax⟩

/-- Witness for C8 at the source's own doctest data
`linear_search([2.3, 14.2, 110.4, 342.2], 5.5) == 0`. -/
theorem linear_search_encloses_or_sentinel_witness :
    ([(23 : ℚ)/10, 142/10, 1104/10, 3422/10] ≠ []) ∧
    ([(23 : ℚ)/10, 142/10, 1104/10, 3422/10].Chain' (· < ·)) ∧
    ((11 : ℚ)/2 < [(23 : ℚ)/10, 142/10, 1104/10, 3422/10].getD 0 0 →
      linear_search [(23 : ℚ)/10, 142/10, 1104/10, 3422/10] (11/2) = -1) ∧
    ([(23 : ℚ)/10, 142/10, 1104/10, 3422/10].getLastD 0 ≤ 11/2 →
      linear_search [(23 : ℚ)/10, 142/10, 1104/10, 3422/10] (11/2) = -2) ∧
    ([(23 : ℚ)/10, 142/10, 1104/10, 3422/10].getD 0 0 ≤ 11/2 →
      (11 : ℚ)/2 < [(23 : ℚ)/10, 142/10, 1104/10, 3422/10].getLastD 0 →
      ∃ (j : ℕ) (hj : j < [(23 : ℚ)/10, 142/10, 1104/10, 3422/10].length),
        linear_search [(23 : ℚ)/10, 142/10, 1104/10, 3422/10] (11/2) = j ∧
        [(23 : ℚ)/10, 142/10, 1104/10, 3422/10].get ⟨j, hj⟩ ≤ 11/2 ∧
        ∀ (m : ℕ) (hm : m < [(23 : ℚ)/10, 142/10, 1104/10, 3422/10].length),
          [(23 : ℚ)/10, 142/10, 1104/10, 3422/10].get ⟨m, hm⟩ ≤ 11/2 → m ≤ j) := by
  have h1 : ([(23 : ℚ)/10, 142/10, 1104/10, 3422/10] ≠ []) := by decide
  have h2 : ([(23 : ℚ)/10, 142/10, 1104/10, 3422/10].Chain' (· < ·)) := by
    norm_num [List.chain'_cons]
  rcases linear_search_encloses_or_sentinel
      [(23 : ℚ)/10, 142/10, 1104/10, 3422/10] (11/2) h1 h2 with ⟨ha, hb, hc⟩
  exact ⟨h1, h2, ha, hb, hc⟩

/-! ## Generic facts about the embedded polyline -/

lemma calc_cum_distance_length (W : List (ℝ × ℝ)) :
    (calc_cum_distance W).length = W.length - 1 := by
  simp [calc_cum_distance, cumsum, List.length_scanl]

lemma polyline.init_eq_some {W : List (ℝ × ℝ)} {pl : polyline}
    (h : polyline.init W = some pl) :
    2 ≤ W.length ∧ pl.XY_waypoints = W ∧ pl.idx2arclen = 0 :: calc_cum_distance W := by
  by_cases hW : 2 ≤ W.length
  · refine ⟨hW, ?_, ?_⟩ <;>
    · have := h
      simp only [polyline.init, if_pos hW, Option.some.injEq] at this
      rw [← this]
  · simp [polyline.init, if_neg hW] at h

lemma getD_length_sub_one : ∀ (l : List ℝ), l ≠ [] →
    l.getD (l.length - 1) 0 = l.getLastD 0 := by
  intro l
  induction l with
  | nil => intro h; exact absurd rfl h
  | cons a r ih =>
    intro _
    match r with
    | [] => rfl
    | b :: t =>
      have h1 : (a :: b :: t).getD ((a :: b :: t).length - 1) 0 =
          (b :: t).getD ((b :: t).length - 1) 0 := by
        simp [List.getD_cons_succ]
      rw [h1, ih (by simp)]
      simp only [List.getLastD_cons]

lemma polyline.pos_fst_of_pos_utang (pl : polyline) (s : ℝ) (c : Bool) :
    (pl._get_pos_utang s c).1 = pl._get_pos s c := rfl

/-- A converged loop state is returned unchanged by the remaining fuel. -/
lemma polyline.project_loop_of_conv (pl : polyline) (q : ℝ × ℝ) (tol : ℝ) :
    ∀ (n : ℕ) (st : ProjState), st.conv = true → pl.project_loop q tol n st = st := by
  intro n
  induction n with
  | zero => intro st _; rfl
  | succ m _ => intro st h; simp [polyline.project_loop, h]

lemma planar_project_loop_of_conv (g : ℝ → (ℝ × ℝ) × (ℝ × ℝ)) (q : ℝ × ℝ) (tol : ℝ) :
    ∀ (n : ℕ) (st : ProjState), st.conv = true →
      planar_project_loop g q tol n st = st := by
  intro n
  induction n with
  | zero => intro st _; rfl
  | succ m _ => intro st h; simp [planar_project_loop, h]

lemma dot2_zero_left (v : ℝ × ℝ) : dot2 0 v = 0 := by simp [dot2]

/-- When `0 ≤ s ≤ tot_dist`, the default clipping is a no-op. -/
lemma polyline.clip0_noop (pl : polyline) (s : ℝ) (h0 : 0 ≤ s)
    (h1 : s ≤ pl.get_tot_dist) : pl.clip0 s = s := by
  simp [polyline.clip0, max_eq_left h0, min_eq_left h1]

lemma polyline._get_pos_clip_noop (pl : polyline) (s : ℝ) (h0 : 0 ≤ s)
    (h1 : s ≤ pl.get_tot_dist) : pl._get_pos s true = pl._get_pos s false := by
  simp [polyline._get_pos, pl.clip0_noop s h0 h1]

/-- C2: projecting a curve's own point at `s0`, with `s0` as the initial
guess, converges on the first iteration and returns exactly `(s0, 0.0)` —
both for the base-class `planar_curve_deg1.project` over any curve
supplying the bundled position/unit-tangent evaluator `_get_pos_utang`
(degree ≥ 2 curves such as the spline override included), where the query
is the curve's position `(g s0).1` at `s0`, and for the Polyline-specific
`project` on a valid polyline with `s0` strictly inside the domain, where
the query is `get_pos(s0)`. -/
theorem project_of_curve_point_self_consistent
    (g : ℝ → (ℝ × ℝ) × (ℝ × ℝ)) (W : List (ℝ × ℝ)) (pl : polyline)
    (s0 tol : ℝ) (n : ℕ)
    (hinit : polyline.init W = some pl)
    (_hsorted : pl.idx2arclen.Chain' (· < ·))
    (hlo : pl.s_min < s0) (hhi : s0 < pl.s_max)
    (hn : 1 ≤ n) (htol : 0 < tol) :
    planar_project g ((g s0).1) s0 n tol = some (s0, 0) ∧
    pl.project (pl.get_pos s0 true) s0 n tol = some (some s0, 0) := by
  rcases Nat.exists_eq_add_of_le hn with ⟨m, hm⟩
  constructor
  · have hstep : planar_project_loop g ((g s0).1) tol (1 + m) ⟨s0, 0, 0, false⟩ =
        ⟨s0, 0, (g s0).2, true⟩ := by
      rw [Nat.add_comm 1 m]
      simp only [planar_project_loop]
      rw [sub_self, dot2_zero_left, add_zero, sub_self, abs_zero, if_pos htol]
      exact planar_project_loop_of_conv g _ tol m _ rfl
    rw [planar_project, if_neg (by omega), hm, hstep]
    simp [dot2_zero_left]
  · rcases polyline.init_eq_some hinit with ⟨hW, hWeq, harc⟩
    have hsmin : pl.s_min = 0 := by simp [polyline.s_min, harc]
    have hsmax : pl.s_max = pl.get_tot_dist := rfl
    have h0 : (0 : ℝ) ≤ s0 := le_of_lt (hsmin ▸ hlo)
    have h1 : s0 ≤ pl.get_tot_dist := le_of_lt (hsmax ▸ hhi)
    have hq : pl.get_pos s0 true = (pl._get_pos_utang s0 false).1 := by
      rw [polyline.pos_fst_of_pos_utang]
      exact pl._get_pos_clip_noop s0 h0 h1
    have hstep : pl.project_loop (pl.get_pos s0 true) tol (1 + m) ⟨s0, 0, 0, false⟩ =
        ⟨s0, 0, (pl._get_pos_utang s0 false).2, true⟩ := by
      rw [Nat.add_comm 1 m]
      simp only [polyline.project_loop]
      rw [hq, sub_self, dot2_zero_left, add_zero, sub_self, abs_zero, if_pos htol]
      exact pl.project_loop_of_conv _ tol m _ rfl
    rw [polyline.project, if_neg (by omega), hm, hstep]
    simp [dot2_zero_left]

/-! ## Concrete polylines used as witnesses and counterexamples -/

lemma sqrt_eval {x c : ℝ} (hc : 0 ≤ c) (h : c ^ 2 = x) : Real.sqrt x = c := by
  rw [← h, Real.sqrt_sq hc]

/-- The two-waypoint polyline over `[(0,0), (1,0)]`. -/
def plA : polyline := ⟨[(0, 0), (1, 0)], [0, 1]⟩

/-- The three-waypoint polyline over `[(0,0), (1,0), (1,1)]` of spec §8.7. -/
def plB : polyline := ⟨[(0, 0), (1, 0), (1, 1)], [0, 1, 2]⟩

/-- The four-waypoint polyline over `[(0,0), (3,4), (6,0), (9,4)]`
(all chord lengths are 5). -/
def plC : polyline := ⟨[(0, 0), (3, 4), (6, 0), (9, 4)], [0, 5, 10, 15]⟩

/-- The polyline over `[(0,0), (0,0), (1,0)]` with a duplicated waypoint. -/
def plD : polyline := ⟨[(0, 0), (0, 0), (1, 0)], [0, 0, 1]⟩

lemma norm2_eval {a b c : ℝ} (hc : 0 ≤ c) (h : a ^ 2 + b ^ 2 = c ^ 2) :
    norm2 (a, b) = c := by
  simp only [norm2]
  exact sqrt_eval hc h.symm

lemma plA_init : polyline.init [((0 : ℝ), 0), (1, 0)] = some plA := by
  have h1 : norm2 (((1 : ℝ), (0 : ℝ)) - (0, 0)) = 1 := by
    rw [Prod.mk_sub_mk]
    exact norm2_eval (by norm_num) (by norm_num)
  simp only [polyline.init, calc_cum_distance, cumsum, List.tail_cons,
    List.zipWith_cons_cons, List.zipWith_nil_right, h1, List.scanl]
  norm_num [plA]

lemma plB_init : polyline.init [((0 : ℝ), 0), (1, 0), (1, 1)] = some plB := by
  have h1 : norm2 (((1 : ℝ), (0 : ℝ)) - (0, 0)) = 1 := by
    rw [Prod.mk_sub_mk]
    exact norm2_eval (by norm_num) (by norm_num)
  have h2 : norm2 (((1 : ℝ), (1 : ℝ)) - (1, 0)) = 1 := by
    rw [Prod.mk_sub_mk]
    exact norm2_eval (by norm_num) (by norm_num)
  simp only [polyline.init, calc_cum_distance, cumsum, List.tail_cons,
    List.zipWith_cons_cons, List.zipWith_nil_right, h1, h2, List.scanl]
  norm_num [plB]

lemma plC_init : polyline.init [((0 : ℝ), 0), (3, 4), (6, 0), (9, 4)] = some plC := by
  have h1 : norm2 (((3 : ℝ), (4 : ℝ)) - (0, 0)) = 5 := by
    rw [Prod.mk_sub_mk]
    exact norm2_eval (by norm_num) (by norm_num)
  have h2 : norm2 (((6 : ℝ), (0 : ℝ)) - (3, 4)) = 5 := by
    rw [Prod.mk_sub_mk]
    exact norm2_eval (by norm_num) (by norm_num)
  have h3 : norm2 (((9 : ℝ), (4 : ℝ)) - (6, 0)) = 5 := by
    rw [Prod.mk_sub_mk]
    exact norm2_eval (by norm_num) (by norm_num)
  simp only [polyline.init, calc_cum_distance, cumsum, List.tail_cons,
    List.zipWith_cons_cons, List.zipWith_nil_right, h1, h2, h3, List.scanl]
  norm_num [plC]

lemma plD_init : polyline.init [((0 : ℝ), 0), (0, 0), (1, 0)] = some plD := by
  have h1 : norm2 (((0 : ℝ), (0 : ℝ)) - (0, 0)) = 0 := by
    rw [Prod.mk_sub_mk]
    exact norm2_eval (by norm_num) (by norm_num)
  have h2 : norm2 (((1 : ℝ), (0 : ℝ)) - (0, 0)) = 1 := by
    rw [Prod.mk_sub_mk]
    exact norm2_eval (by norm_num) (by norm_num)
  simp only [polyline.init, calc_cum_distance, cumsum, List.tail_cons,
    List.zipWith_cons_cons, List.zipWith_nil_right, h1, h2, List.scanl]
  norm_num [plD]

/-- Witness for C2: the base-class variant at the unit-speed evaluator
`s ↦ ((s, 0), (1, 0))` (the straight curve's `_get_pos_utang`) and the
Polyline variant on `[(0,0), (1,0)]`, with `s0 = 1/2`, default
`iter_max = 5` and `soln_tolerance = 0.001`. -/
theorem project_of_curve_point_self_consistent_witness :
    polyline.init [((0 : ℝ), 0), (1, 0)] = some plA ∧
    plA.idx2arclen.Chain' (· < ·) ∧
    plA.s_min < 1 / 2 ∧ (1 / 2 : ℝ) < plA.s_max ∧
    1 ≤ 5 ∧ (0 : ℝ) < 1 / 1000 ∧
    planar_project (fun s => ((s, 0), (1, 0))) ((1 / 2 : ℝ), (0 : ℝ))
      (1 / 2) 5 (1 / 1000) = some (1 / 2, 0) ∧
    plA.project (plA.get_pos (1 / 2) true) (1 / 2) 5 (1 / 1000) =
      some (some (1 / 2), 0) := by
  have hc : plA.idx2arclen.Chain' (· < ·) := by
    norm_num [plA, List.chain'_cons]
  have hlo : plA.s_min < 1 / 2 := by norm_num [plA, polyline.s_min]
  have hhi : (1 / 2 : ℝ) < plA.s_max := by norm_num [plA, polyline.s_max]
  rcases project_of_curve_point_self_consistent (fun s => ((s, 0), (1, 0)))
    [((0 : ℝ), 0), (1, 0)] plA (1 / 2) (1 / 1000) 5
    plA_init hc hlo hhi (by norm_num) (by norm_num) with ⟨hg, hp⟩
  exact ⟨plA_init, hc, hlo, hhi, by norm_num, by norm_num, hg, hp⟩

/-! ## Search/segment lemmas for extrapolation behavior -/

lemma chain_getD_lt : ∀ (l : List ℝ), l.Chain' (· < ·) →
    ∀ (i : ℕ), i + 1 < l.length → l.getD i 0 < l.getD (i + 1) 0 := by
  intro l
  induction l with
  | nil => intro _ i hi; simp at hi
  | cons a rest ih =>
    intro hch i hi
    match rest, i with
    | b :: t, 0 =>
      simpa using (List.chain'_cons.mp hch).1
    | b :: t, i + 1 =>
      have := ih (List.chain'_cons.mp hch).2 i (by simpa using hi)
      simpa using this

lemma polyline.search_below (pl : polyline) (s : ℝ)
    (hne : pl.idx2arclen ≠ []) (hq : s < pl.s_min) :
    pl.search_first_bkpt_idx s = 0 := by
  rcases List.exists_cons_of_ne_nil hne with ⟨a, rest, he⟩
  have hq' : s < a := by
    have : pl.s_min = a := by simp [polyline.s_min, he]
    exact this ▸ hq
  simp [polyline.search_first_bkpt_idx, linear_search, he, linear_search_aux, hq']

lemma polyline.search_above (pl : polyline) (s : ℝ)
    (hsorted : pl.idx2arclen.Chain' (· < ·))
    (hq : pl.s_max ≤ s) :
    pl.search_first_bkpt_idx s = pl.idx2arclen.length - 2 := by
  have hforall : ∀ a ∈ pl.idx2arclen, a ≤ s := fun a ha =>
    le_trans (chain_le_getLastD pl.idx2arclen 0 hsorted a ha) hq
  have hsearch : linear_search pl.idx2arclen s = -2 :=
    linear_search_aux_of_forall_le s pl.idx2arclen 0 hforall
  simp [polyline.search_first_bkpt_idx, hsearch]

lemma polyline.search_at_head (pl : polyline) (a b : ℝ) (t : List ℝ)
    (he : pl.idx2arclen = a :: b :: t) (hab : a < b) :
    pl.search_first_bkpt_idx a = 0 := by
  simp [polyline.search_first_bkpt_idx, linear_search, he, linear_search_aux,
    lt_irrefl, hab]

lemma polyline._get_pos_false (pl : polyline) (s : ℝ) :
    pl._get_pos s false = segmentAffineMap pl (pl.search_first_bkpt_idx s) s := rfl

lemma polyline._get_pos_true (pl : polyline) (s : ℝ) :
    pl._get_pos s true = pl._get_pos (pl.clip0 s) false := rfl

lemma add_smul2_one (p0 p1 : ℝ × ℝ) : p0 + smul2 1 (p1 - p0) = p1 := by
  rcases p0 with ⟨x0, y0⟩
  rcases p1 with ⟨x1, y1⟩
  simp [smul2, Prod.mk_sub_mk, Prod.mk_add_mk]

lemma add_smul2_zero (p0 v : ℝ × ℝ) : p0 + smul2 0 v = p0 := by
  rcases p0 with ⟨x0, y0⟩
  simp [smul2]

/-- C1 (amended): out-of-domain queries extrapolate the boundary segment's
affine map only when clipping is explicitly disabled (`clip=False`); with
the source's default `clip=True` the query is clamped, returning the first
(resp. last) waypoint. -/
theorem get_pos_extrapolates_only_without_clip (W : List (ℝ × ℝ)) (pl : polyline)
    (s : ℝ) (hinit : polyline.init W = some pl)
    (hsorted : pl.idx2arclen.Chain' (· < ·)) :
    (s < pl.s_min →
      pl.get_pos s false = segmentAffineMap pl 0 s ∧
      pl.get_pos s true = W.getD 0 0) ∧
    (pl.s_max < s →
      pl.get_pos s false = segmentAffineMap pl (W.length - 2) s ∧
      pl.get_pos s true = W.getD (W.length - 1) 0) := by
  rcases polyline.init_eq_some hinit with ⟨hW, hWeq, harc⟩
  have hlen : pl.idx2arclen.length = W.length := by
    rw [harc, List.length_cons, calc_cum_distance_length]
    omega
  have hne : pl.idx2arclen ≠ [] := by rw [harc]; simp
  have hsmin0 : pl.s_min = 0 := by simp [polyline.s_min, harc]
  have h0mem : (0 : ℝ) ∈ pl.idx2arclen := by rw [harc]; simp
  have h0tot : (0 : ℝ) ≤ pl.get_tot_dist :=
    chain_le_getLastD pl.idx2arclen 0 hsorted 0 h0mem
  have hcdne : calc_cum_distance W ≠ [] := by
    intro hnil
    have := calc_cum_distance_length W
    rw [hnil] at this
    simp at this
    omega
  rcases List.exists_cons_of_ne_nil hcdne with ⟨c0, cd', hcd⟩
  have hhead : pl.idx2arclen = 0 :: c0 :: cd' := by rw [harc, hcd]
  have h0c0 : (0 : ℝ) < c0 := by
    have := hsorted
    rw [hhead] at this
    exact (List.chain'_cons.mp this).1
  constructor
  · intro hs
    have hsneg : s ≤ 0 := le_of_lt (hsmin0 ▸ hs)
    refine ⟨?_, ?_⟩
    · rw [polyline.get_pos, polyline._get_pos_false, pl.search_below s hne hs]
    · have hclip : pl.clip0 s = 0 := by
        rw [polyline.clip0, max_eq_right hsneg, min_eq_left h0tot]
      rw [polyline.get_pos, polyline._get_pos_true, hclip, polyline._get_pos_false,
        pl.search_at_head 0 c0 cd' hhead h0c0]
      have ht0 : pl.idx2arclen.getD 0 0 = 0 := by rw [hhead]; rfl
      simp only [segmentAffineMap, ht0, sub_self, zero_div]
      rw [add_smul2_zero, hWeq]
  · intro hs
    have htot_le : pl.get_tot_dist ≤ s := le_of_lt hs
    refine ⟨?_, ?_⟩
    · rw [polyline.get_pos, polyline._get_pos_false,
        pl.search_above s hsorted (le_of_lt hs), hlen]
    · have h0s : 0 ≤ s := le_trans h0tot htot_le
      have hclip : pl.clip0 s = pl.get_tot_dist := by
        rw [polyline.clip0, max_eq_left h0s, min_eq_right htot_le]
      rw [polyline.get_pos, polyline._get_pos_true, hclip, polyline._get_pos_false,
        pl.search_above pl.get_tot_dist hsorted (le_of_eq rfl)]
      have hn2 : 2 ≤ pl.idx2arclen.length := by omega
      have hk1 : pl.idx2arclen.length - 2 + 1 = pl.idx2arclen.length - 1 := by omega
      have htlast : pl.idx2arclen.getD (pl.idx2arclen.length - 1) 0 =
          pl.get_tot_dist := getD_length_sub_one pl.idx2arclen hne
      have hlt : pl.idx2arclen.getD (pl.idx2arclen.length - 2) 0 <
          pl.idx2arclen.getD (pl.idx2arclen.length - 2 + 1) 0 :=
        chain_getD_lt pl.idx2arclen hsorted (pl.idx2arclen.length - 2) (by omega)
      rw [hk1, htlast] at hlt
      have hdiv : (pl.get_tot_dist - pl.idx2arclen.getD (pl.idx2arclen.length - 2) 0) /
          (pl.get_tot_dist - pl.idx2arclen.getD (pl.idx2arclen.length - 2) 0) = 1 :=
        div_self (sub_ne_zero.mpr (ne_of_gt hlt))
      simp only [segmentAffineMap, hk1, htlast, hdiv]
      rw [add_smul2_one, hWeq]
      congr 1
      omega

/-- C1 counterexample: on the polyline over `[(0,0), (1,0)]` (domain
`[0,1]`), querying `get_pos` at arc-length 2 with the source's default
`clip=True` returns the clamped endpoint `(1,0)`, not the affine extension
`(2,0)` of the last segment. -/
theorem get_pos_default_clamps_counterexample :
    plA.get_pos 2 true = (1, 0) ∧
    segmentAffineMap plA 0 2 = (2, 0) ∧
    plA.get_pos 2 true ≠ segmentAffineMap plA 0 2 := by
  have h1 : plA.get_pos 2 true = (1, 0) := by
    norm_num [polyline.get_pos, polyline._get_pos, polyline.clip0,
      polyline.get_tot_dist, polyline.search_first_bkpt_idx, linear_search,
      linear_search_aux, plA, smul2, Prod.mk_sub_mk, Prod.mk_add_mk,
      List.getLastD_cons, List.getLastD]
  have h2 : segmentAffineMap plA 0 2 = (2, 0) := by
    norm_num [segmentAffineMap, plA, smul2, Prod.mk_sub_mk, Prod.mk_add_mk]
  refine ⟨h1, h2, ?_⟩
  rw [h1, h2]
  norm_num [Prod.mk.injEq]

/-- Witness for the amended C1 on the polyline over `[(0,0), (1,0)]`,
with queries `s = -1` (below) and `s = 3` (above). -/
theorem get_pos_extrapolates_only_without_clip_witness :
    polyline.init [((0 : ℝ), 0), (1, 0)] = some plA ∧
    plA.idx2arclen.Chain' (· < ·) ∧
    ((-1 : ℝ) < plA.s_min ∧
      plA.get_pos (-1) false = segmentAffineMap plA 0 (-1) ∧
      plA.get_pos (-1) true = (0, 0)) ∧
    (plA.s_max < (3 : ℝ) ∧
      plA.get_pos 3 false = segmentAffineMap plA 0 3 ∧
      plA.get_pos 3 true = (1, 0)) := by
  have hc : plA.idx2arclen.Chain' (· < ·) := by
    norm_num [plA, List.chain'_cons]
  have hlo : (-1 : ℝ) < plA.s_min := by norm_num [plA, polyline.s_min]
  have hhi : plA.s_max < (3 : ℝ) := by
    norm_num [plA, polyline.s_max, List.getLastD_cons, List.getLastD]
  have hbelow := (get_pos_extrapolates_only_without_clip
    [((0 : ℝ), 0), (1, 0)] plA (-1) plA_init hc).1 hlo
  have habove := (get_pos_extrapolates_only_without_clip
    [((0 : ℝ), 0), (1, 0)] plA 3 plA_init hc).2 hhi
  exact ⟨plA_init, hc, ⟨hlo, hbelow.1, hbelow.2⟩, ⟨hhi, habove.1, habove.2⟩⟩

/-- C3: when the projection loop exhausts `iter_max` without converging,
the base-class `project` still returns the last iterate's arc-length
together with the signed offset of the last iterate, while the
Polyline-specific `project` replaces the arc-length by the NaN sentinel
(modelled as `none`) yet returns the same last-iterate signed offset; in
both variants the call returns a value (never raises) as long as the
`iter_max > 0` assertion passes.  The two loop bodies compute identically
when the base curve's evaluator is the polyline's own `_get_pos_utang`. -/
theorem projection_nonconvergence_policy
    (g : ℝ → (ℝ × ℝ) × (ℝ × ℝ)) (pl : polyline) (q : ℝ × ℝ) (s0 tol : ℝ) (n : ℕ)
    (hn : 1 ≤ n)
    (_hB : (planar_project_loop g q tol n ⟨s0, 0, 0, false⟩).conv = false)
    (hP : (pl.project_loop q tol n ⟨s0, 0, 0, false⟩).conv = false) :
    planar_project g q s0 n tol =
      some ((planar_project_loop g q tol n ⟨s0, 0, 0, false⟩).s,
        dot2 (planar_project_loop g q tol n ⟨s0, 0, 0, false⟩).delta
          (rot90 (planar_project_loop g q tol n ⟨s0, 0, 0, false⟩).ut)) ∧
    pl.project q s0 n tol =
      some (none,
        dot2 (pl.project_loop q tol n ⟨s0, 0, 0, false⟩).delta
          (rot90 (pl.project_loop q tol n ⟨s0, 0, 0, false⟩).ut)) ∧
    (∀ (m : ℕ) (st : ProjState),
      pl.project_loop q tol m st =
        planar_project_loop (fun t => pl._get_pos_utang t false) q tol m st) := by
  refine ⟨?_, ?_, ?_⟩
  · simp only [planar_project, if_neg (show ¬n = 0 by omega)]
  · simp only [polyline.project, if_neg (show ¬n = 0 by omega), hP,
      Bool.false_eq_true, if_false]
  · intro m
    induction m with
    | zero => intro st; rfl
    | succ k ih =>
      intro st
      by_cases h : st.conv = true
      · simp only [polyline.project_loop, planar_project_loop, if_pos h]
      · simp only [polyline.project_loop, planar_project_loop, if_neg h]
        exact ih _

lemma plA_pu0 : plA._get_pos_utang 0 false = ((0, 0), (1, 0)) := by
  have hn1 : norm2 ((1 : ℝ), (0 : ℝ)) = 1 := norm2_eval (by norm_num) (by norm_num)
  norm_num [polyline._get_pos_utang, polyline.search_first_bkpt_idx,
    linear_search, linear_search_aux, plA, smul2, vdiv2, hn1,
    Prod.mk_sub_mk, Prod.mk_add_mk]

/-- Witness for C3: a constant curve evaluator and the polyline over
`[(0,0), (1,0)]`, query `(10, 0)`, guess 0, one iteration, default
tolerance: the increment is 10, so neither loop converges. -/
theorem projection_nonconvergence_policy_witness :
    1 ≤ 1 ∧
    (planar_project_loop (fun _ => (((0 : ℝ), (0 : ℝ)), ((1 : ℝ), (0 : ℝ))))
      ((10 : ℝ), (0 : ℝ)) (1 / 1000) 1 ⟨0, 0, 0, false⟩).conv = false ∧
    (plA.project_loop ((10 : ℝ), (0 : ℝ)) (1 / 1000) 1 ⟨0, 0, 0, false⟩).conv = false ∧
    planar_project (fun _ => (((0 : ℝ), (0 : ℝ)), ((1 : ℝ), (0 : ℝ))))
        ((10 : ℝ), (0 : ℝ)) 0 1 (1 / 1000) =
      some ((planar_project_loop (fun _ => (((0 : ℝ), (0 : ℝ)), ((1 : ℝ), (0 : ℝ))))
          ((10 : ℝ), (0 : ℝ)) (1 / 1000) 1 ⟨0, 0, 0, false⟩).s,
        dot2 (planar_project_loop (fun _ => (((0 : ℝ), (0 : ℝ)), ((1 : ℝ), (0 : ℝ))))
            ((10 : ℝ), (0 : ℝ)) (1 / 1000) 1 ⟨0, 0, 0, false⟩).delta
          (rot90 (planar_project_loop (fun _ => (((0 : ℝ), (0 : ℝ)), ((1 : ℝ), (0 : ℝ))))
            ((10 : ℝ), (0 : ℝ)) (1 / 1000) 1 ⟨0, 0, 0, false⟩).ut)) ∧
    plA.project ((10 : ℝ), (0 : ℝ)) 0 1 (1 / 1000) =
      some (none,
        dot2 (plA.project_loop ((10 : ℝ), (0 : ℝ)) (1 / 1000) 1 ⟨0, 0, 0, false⟩).delta
          (rot90 (plA.project_loop ((10 : ℝ), (0 : ℝ)) (1 / 1000) 1 ⟨0, 0, 0, false⟩).ut)) := by
  have hB : (planar_project_loop (fun _ => (((0 : ℝ), (0 : ℝ)), ((1 : ℝ), (0 : ℝ))))
      ((10 : ℝ), (0 : ℝ)) (1 / 1000) 1 ⟨0, 0, 0, false⟩).conv = false := by
    simp only [planar_project_loop]
    norm_num [dot2, Prod.mk_sub_mk, abs_lt]
  have hP : (plA.project_loop ((10 : ℝ), (0 : ℝ)) (1 / 1000) 1
      ⟨0, 0, 0, false⟩).conv = false := by
    simp only [polyline.project_loop, plA_pu0]
    norm_num [dot2, Prod.mk_sub_mk, abs_lt]
  rcases projection_nonconvergence_policy
    (fun _ => (((0 : ℝ), (0 : ℝ)), ((1 : ℝ), (0 : ℝ)))) plA
    ((10 : ℝ), (0 : ℝ)) 0 (1 / 1000) 1 (by norm_num) hB hP with ⟨h1, h2, _⟩
  exact ⟨by norm_num, hB, hP, h1, h2⟩

lemma polyline.project_loop_step (pl : polyline) (q : ℝ × ℝ) (tol : ℝ) (n : ℕ)
    (st : ProjState) (h : st.conv = false) :
    pl.project_loop q tol (n + 1) st =
      pl.project_loop q tol n
        ⟨st.s + dot2 (q - (pl._get_pos_utang st.s false).1)
            (pl._get_pos_utang st.s false).2,
          q - (pl._get_pos_utang st.s false).1,
          (pl._get_pos_utang st.s false).2,
          if |st.s + dot2 (q - (pl._get_pos_utang st.s false).1)
              (pl._get_pos_utang st.s false).2 - st.s| < tol
          then true else false⟩ := by
  simp only [polyline.project_loop, h, Bool.false_eq_true, if_false]

lemma plB_pu_half : plB._get_pos_utang (1 / 2) false = ((1 / 2, 0), (1, 0)) := by
  have hn1 : norm2 ((1 : ℝ), (0 : ℝ)) = 1 := norm2_eval (by norm_num) (by norm_num)
  norm_num [polyline._get_pos_utang, polyline.search_first_bkpt_idx,
    linear_search, linear_search_aux, plB, smul2, vdiv2, hn1,
    Prod.mk_sub_mk, Prod.mk_add_mk]

lemma plB_project_eval :
    plB.project ((1 / 2 : ℝ), (1 / 2 : ℝ)) (1 / 2) 5 (1 / 1000) =
      some (some (1 / 2), 1 / 2) := by
  have h1 : plB.project_loop ((1 / 2 : ℝ), (1 / 2 : ℝ)) (1 / 1000) 5
      ⟨1 / 2, 0, 0, false⟩ = ⟨1 / 2, ((0 : ℝ), (1 / 2 : ℝ)), ((1 : ℝ), (0 : ℝ)), true⟩ := by
    rw [show (5 : ℕ) = 4 + 1 from rfl,
      plB.project_loop_step ((1 / 2 : ℝ), (1 / 2 : ℝ)) (1 / 1000) 4 _ rfl]
    norm_num [plB_pu_half, dot2, Prod.mk_sub_mk, abs_lt]
    exact plB.project_loop_of_conv _ _ 4 _ rfl
  rw [polyline.project, if_neg (by norm_num), h1]
  norm_num [dot2, rot90]

/-- C4 counterexample: for the polyline over `[(0,0), (1,0), (1,1)]`,
`project((0.5, 0.5), guess 0.5)` with default `iter_max=5`,
`soln_tolerance=0.001` converges to arc-length `0.5` — the foot of the
perpendicular on the first segment — not to arc-length ≈ 1.0 (the corner):
the returned arc-length is not within `1/4` of 1. -/
theorem project_corner_scenario_counterexample :
    polyline.init [((0 : ℝ), 0), (1, 0), (1, 1)] = some plB ∧
    plB.project ((1 / 2 : ℝ), (1 / 2 : ℝ)) (1 / 2) 5 (1 / 1000) =
      some (some (1 / 2), 1 / 2) ∧
    ¬ |(1 / 2 : ℝ) - 1| ≤ 1 / 4 :=
  ⟨plB_init, plB_project_eval, by norm_num [abs_le]⟩

/-- C4 (amended): for the polyline over `[(0,0), (1,0), (1,1)]`,
`project((0.5, 0.5), guess 0.5)` with the default iteration limit and
tolerance converges (on the first iteration) and returns arc-length
exactly `0.5` and signed offset `+0.5` (the query lies to the left of the
path direction, above the first segment). -/
theorem project_corner_scenario_amended :
    polyline.init [((0 : ℝ), 0), (1, 0), (1, 1)] = some plB ∧
    plB.project ((1 / 2 : ℝ), (1 / 2 : ℝ)) (1 / 2) 5 (1 / 1000) =
      some (some (1 / 2), 1 / 2) :=
  ⟨plB_init, plB_project_eval⟩

/-- C5: evaluating the constructor at the duplicate-waypoint input
`[(0,0), (0,0), (1,0)]` — the `__init__` assertions (shape, at least 2
waypoints) all pass, so construction succeeds, yet the resulting
`idx2arclen = [0, 0, 1]` is **not** strictly increasing: the documented
invariant of the base class is silently violated. -/
theorem polyline_init_accepts_duplicate_waypoints :
    polyline.init [((0 : ℝ), 0), (0, 0), (1, 0)] = some plD ∧
    ¬ plD.idx2arclen.Chain' (· < ·) :=
  ⟨plD_init, by norm_num [plD, List.chain'_cons]⟩

/-- Evaluating the successive-wrap reduction at shifted arguments. -/
lemma cubic_interpolating_loop.wrap_add_int (c : cubic_interpolating_loop)
    (s : ℝ) (k : ℤ) : c.wrap (s + k * c.period) = c.wrap s := by
  unfold cubic_interpolating_loop.wrap
  have hT : c.period ≠ 0 := ne_of_gt c.period_pos
  have h1 : (s + k * c.period - c.s_min) / c.period = (s - c.s_min) / c.period + k := by
    field_simp
    ring
  rw [h1, Int.floor_add_int]
  push_cast
  ring

/-- C6: every supported query of a periodic cubic spline curve — position,
tangent, unit tangent, second derivative and signed curvature — is
invariant under shifting the parameter by any integer multiple of the
period (exactly, in real arithmetic). -/
theorem periodic_loop_evaluations_periodic (c : cubic_interpolating_loop)
    (s : ℝ) (k : ℤ) :
    c.get_pos (s + k * c.period) = c.get_pos s ∧
    c.get_tang (s + k * c.period) = c.get_tang s ∧
    c.get_utang (s + k * c.period) = c.get_utang s ∧
    c.get_deri_tang (s + k * c.period) = c.get_deri_tang s ∧
    c.get_curv (s + k * c.period) = c.get_curv s := by
  have hw := c.wrap_add_int s k
  refine ⟨?_, ?_, ?_, ?_, ?_⟩ <;>
    simp [cubic_interpolating_loop.get_pos, cubic_interpolating_loop.get_tang,
      cubic_interpolating_loop.get_utang, cubic_interpolating_loop.get_deri_tang,
      cubic_interpolating_loop.get_curv, hw]

/-- C9: after `fit_pos_vel_ends(p0, v0, p1, v1)` on a single-piece cubic
over `[t0, t1]` with `t0 ≠ t1`, the fitted polynomial interpolates the
boundary data exactly: `get_pos(t0) = p0`, `get_pos(t1) = p1`,
`get_tang(t0) = v0`, `get_tang(t1) = v1`. -/
theorem fit_pos_vel_ends_interpolates (t0 t1 : ℝ) (p0 v0 p1 v1 : ℝ × ℝ)
    (sp : spline_2d_onepiece) (hne : t0 ≠ t1)
    (hinit : spline_2d_onepiece.init t0 t1 none = .ok sp) :
    (sp.fit_pos_vel_ends p0 v0 p1 v1).get_pos t0 = p0 ∧
    (sp.fit_pos_vel_ends p0 v0 p1 v1).get_pos t1 = p1 ∧
    (sp.fit_pos_vel_ends p0 v0 p1 v1).get_tang t0 = v0 ∧
    (sp.fit_pos_vel_ends p0 v0 p1 v1).get_tang t1 = v1 := by
  have hT : t1 - t0 ≠ 0 := sub_ne_zero.mpr (Ne.symm hne)
  simp only [spline_2d_onepiece.init, if_neg hT, Except.ok.injEq] at hinit
  subst hinit
  rcases p0 with ⟨p0x, p0y⟩
  rcases v0 with ⟨v0x, v0y⟩
  rcases p1 with ⟨p1x, p1y⟩
  rcases v1 with ⟨v1x, v1y⟩
  refine ⟨?_, ?_, ?_, ?_⟩ <;>
  · simp only [spline_2d_onepiece.fit_pos_vel_ends, spline_2d_onepiece.get_pos,
      spline_2d_onepiece.get_pos_wrt_natural, spline_2d_onepiece.normalize_parameter,
      spline_2d_onepiece.get_tang, spline_2d_onepiece.get_tang_wrt_natural,
      smul2, Prod.mk_sub_mk, Prod.mk_add_mk, Prod.mk.injEq]
    constructor <;> field_simp <;> ring

/-- The successfully constructed single-piece cubic over `[0, 1]`. -/
def sp9 : spline_2d_onepiece := ⟨(0, 0), (0, 0), (0, 0), (0, 0), 0, 1, 1⟩

/-- Witness for C9: `t0 = 0`, `t1 = 1`, boundary data
`p0=(0,0), v0=(1,0), p1=(1,1), v1=(0,1)`. -/
theorem fit_pos_vel_ends_interpolates_witness :
    ((0 : ℝ) ≠ 1) ∧
    spline_2d_onepiece.init (0 : ℝ) 1 none = .ok sp9 ∧
    (sp9.fit_pos_vel_ends (0, 0) (1, 0) (1, 1) (0, 1)).get_pos 0 = (0, 0) ∧
    (sp9.fit_pos_vel_ends (0, 0) (1, 0) (1, 1) (0, 1)).get_pos 1 = (1, 1) ∧
    (sp9.fit_pos_vel_ends (0, 0) (1, 0) (1, 1) (0, 1)).get_tang 0 = (1, 0) ∧
    (sp9.fit_pos_vel_ends (0, 0) (1, 0) (1, 1) (0, 1)).get_tang 1 = (0, 1) := by
  have hne : (0 : ℝ) ≠ 1 := by norm_num
  have hi : spline_2d_onepiece.init (0 : ℝ) 1 none = .ok sp9 := by
    norm_num [spline_2d_onepiece.init, sp9]
  rcases fit_pos_vel_ends_interpolates 0 1 (0, 0) (1, 0) (1, 1) (0, 1) sp9 hne hi
    with ⟨h1, h2, h3, h4⟩
  exact ⟨hne, hi, h1, h2, h3, h4⟩

/-- C10: constructing `spline_2d_onepiece` with a non-`None` coefficient
argument always raises `AttributeError` (the constructor reads
`self.coeff.shape` before `self.coeff` is ever assigned on that branch),
so supplying coefficients at construction can never succeed. -/
theorem spline_init_with_coeff_raises (t0 t1 : ℝ)
    (c : (ℝ × ℝ) × (ℝ × ℝ) × (ℝ × ℝ) × (ℝ × ℝ)) (_hne : t0 ≠ t1) :
    spline_2d_onepiece.init t0 t1 (some c) = .error .attributeError := rfl

/-- Witness for C10 at `t0 = 0`, `t1 = 1` and an all-zero coefficient
table. -/
theorem spline_init_with_coeff_raises_witness :
    ((0 : ℝ) ≠ 1) ∧
    spline_2d_onepiece.init (0 : ℝ) 1 (some ((0, 0), (0, 0), (0, 0), (0, 0))) =
      .error .attributeError :=
  ⟨by norm_num, spline_init_with_coeff_raises 0 1 _ (by norm_num)⟩

/-- Expanding the power-basis coefficients of `fit_cubic4` back into the
Newton divided-difference form (a formal ring identity). -/
lemma evalCubic_fit_cubic4 (t0 t1 t2 t3 y0 y1 y2 y3 s : ℝ) :
    evalCubic (fit_cubic4 t0 t1 t2 t3 y0 y1 y2 y3) s =
      y0 + ((y1 - y0) / (t1 - t0)) * (s - t0) +
        (((y2 - y1) / (t2 - t1) - (y1 - y0) / (t1 - t0)) / (t2 - t0)) *
          ((s - t0) * (s - t1)) +
        ((((y3 - y2) / (t3 - t2) - (y2 - y1) / (t2 - t1)) / (t3 - t1) -
            ((y2 - y1) / (t2 - t1) - (y1 - y0) / (t1 - t0)) / (t2 - t0)) / (t3 - t0)) *
          ((s - t0) * (s - t1) * (s - t2)) := by
  simp only [evalCubic, fit_cubic4]
  ring

/-- C7 (amended): the open curve fits each axis as an interpolating cubic
spline over `idx2arclen` — on four data sites, the fitted spline passes
exactly through the given data (the fit uses the library default
not-a-knot style end conditions, not natural boundary conditions). -/
theorem fit_cubic4_interpolates (t0 t1 t2 t3 y0 y1 y2 y3 : ℝ)
    (h01 : t0 < t1) (h12 : t1 < t2) (h23 : t2 < t3) :
    evalCubic (fit_cubic4 t0 t1 t2 t3 y0 y1 y2 y3) t0 = y0 ∧
    evalCubic (fit_cubic4 t0 t1 t2 t3 y0 y1 y2 y3) t1 = y1 ∧
    evalCubic (fit_cubic4 t0 t1 t2 t3 y0 y1 y2 y3) t2 = y2 ∧
    evalCubic (fit_cubic4 t0 t1 t2 t3 y0 y1 y2 y3) t3 = y3 := by
  have h10 : t1 - t0 ≠ 0 := sub_ne_zero.mpr (ne_of_gt h01)
  have h21 : t2 - t1 ≠ 0 := sub_ne_zero.mpr (ne_of_gt h12)
  have h32 : t3 - t2 ≠ 0 := sub_ne_zero.mpr (ne_of_gt h23)
  have h20 : t2 - t0 ≠ 0 := sub_ne_zero.mpr (ne_of_gt (lt_trans h01 h12))
  have h31 : t3 - t1 ≠ 0 := sub_ne_zero.mpr (ne_of_gt (lt_trans h12 h23))
  have h30 : t3 - t0 ≠ 0 :=
    sub_ne_zero.mpr (ne_of_gt (lt_trans h01 (lt_trans h12 h23)))
  refine ⟨?_, ?_, ?_, ?_⟩ <;> rw [evalCubic_fit_cubic4]
  · ring
  · simp only [sub_self, mul_zero, zero_mul, add_zero]
    field_simp
  · simp only [sub_self, mul_zero, zero_mul, add_zero]
    field_simp
    ring
  · field_simp
    ring

/-- Witness for the amended C7 at nodes `0, 5, 10, 15` with data
`0, 4, 0, 4`. -/
theorem fit_cubic4_interpolates_witness :
    ((0 : ℝ) < 5) ∧ ((5 : ℝ) < 10) ∧ ((10 : ℝ) < 15) ∧
    evalCubic (fit_cubic4 0 5 10 15 0 4 0 4) 0 = 0 ∧
    evalCubic (fit_cubic4 0 5 10 15 0 4 0 4) 5 = 4 ∧
    evalCubic (fit_cubic4 0 5 10 15 0 4 0 4) 10 = 0 ∧
    evalCubic (fit_cubic4 0 5 10 15 0 4 0 4) 15 = 4 := by
  rcases fit_cubic4_interpolates 0 5 10 15 0 4 0 4 (by norm_num) (by norm_num)
    (by norm_num) with ⟨h0, h1, h2, h3⟩
  exact ⟨by norm_num, by norm_num, by norm_num, h0, h1, h2, h3⟩

/-- C7 counterexample: for the open cubic curve built on waypoints
`[(0,0), (3,4), (6,0), (9,4)]` (chord breakpoints `[0, 5, 10, 15]`), the
y-axis spline's second derivative at `s_min` is `-24/25`, not zero: the
fit does not impose natural boundary conditions. -/
theorem open_spline_endpoint_second_derivative_nonzero :
    polyline.init [((0 : ℝ), 0), (3, 4), (6, 0), (9, 4)] = some plC ∧
    interpolating_path2d_ddoty4 plC plC.s_min = -24 / 25 ∧
    (-24 / 25 : ℝ) ≠ 0 := by
  refine ⟨plC_init, ?_, by norm_num⟩
  norm_num [interpolating_path2d_ddoty4, interpolating_path2d_spl_y4, fit_cubic4,
    derCubic, evalCubic, plC, polyline.s_min]
